import Mathlib

/-
Verification of the iterative fix-loop and matching engine of
`fix_hashes.py` (a tool that repeatedly runs a build, scrapes the error
output for a hash-mismatch diagnostic, and patches the corresponding
placeholder entry of a JSON manifest).

Strings are modelled as `List Char`.  Regular-expression searches of the
source are modelled as explicit scanners over every suffix of the text,
with greedy/backtracking behaviour reproduced where it is observable
(`re.search` picks the leftmost position at which the whole pattern
matches; the character classes are modelled over ASCII, which covers the
build-tool output the program scrapes).
-/

/-- The sentinel placeholder hash, module constant `PLACEHOLDER_HASH`
(fix_hashes.py line 26). -/
def PLACEHOLDER_HASH : List Char :=
  "sha256-AAAAAAAAAAAAAAAAAAAAAAAAAAAAAAAAAAAAAAAAAAA=".data

/-- ASCII apostrophe, used inside messages of the source. -/
def squote : Char := Char.ofNat 39

/-- Python truthiness of an optional string: `None` and `""` are falsy. -/
def pyTruthy : Option (List Char) → Bool
  | none => false
  | some s => !s.isEmpty

/-- Whitespace class `\s` of the source's regexes (ASCII part). -/
def isWS (c : Char) : Bool :=
  c = ' ' || c = '\t' || c = '\n' || c = '\r' || c = '\x0b' || c = '\x0c'

/-- Word class `\w` of the source's regexes (ASCII part). -/
def isWordChar (c : Char) : Bool :=
  c.isAlpha || c.isDigit || c = '_'

/-- Character class `[\w+/=]` of the hash token in pattern
`got:\s+(sha256-[\w+/=]+)` (line 136). -/
def isHashChar (c : Char) : Bool :=
  isWordChar c || c = '+' || c = '/' || c = '='

/-- Character class `[a-f0-9]` of the revision tokens (lines 146, 152). -/
def isHexLower (c : Char) : Bool :=
  (('a' ≤ c) && (c ≤ 'f')) || c.isDigit

/-- Match a literal at the head of the text; return the rest. -/
def dropLit (lit l : List Char) : Option (List Char) :=
  if lit.isPrefixOf l then some (l.drop lit.length) else none

/-- Maximal nonempty run of characters satisfying `p` at the head of the
text (the unique viable reading of a greedy `X+` whose continuation
starts with a character outside the class). -/
def takeWhile1 (p : Char → Bool) (l : List Char) : Option (List Char × List Char) :=
  match l.takeWhile p with
  | [] => none
  | c :: cs => some (c :: cs, l.dropWhile p)

/-- Model of `re.search`: try the matcher at every suffix, leftmost
position first. -/
def searchIn {α : Type} (m : List Char → Option α) : List Char → Option α
  | [] => m []
  | l@(_ :: t) =>
    match m l with
    | some r => some r
    | none => searchIn m t

/-- Model of Python `str.replace(pat, rep)` (all non-overlapping
occurrences, scanning left to right); the counter argument skips the
remainder of a replaced occurrence. -/
def pyReplaceAux (pat rep : List Char) : List Char → Nat → List Char
  | [], _ => []
  | _ :: t, k + 1 => pyReplaceAux pat rep t k
  | l@(c :: t), 0 =>
    if pat.isPrefixOf l then rep ++ pyReplaceAux pat rep t (pat.length - 1)
    else c :: pyReplaceAux pat rep t 0

/-- Python `s.replace(pat, rep)`.  An empty pattern inserts `rep` before
every character and at the end, as in Python. -/
def pyReplace (s pat rep : List Char) : List Char :=
  if pat.isEmpty then rep ++ s.foldr (fun c acc => c :: (rep ++ acc)) []
  else pyReplaceAux pat rep s 0

/-- Model of Python `str.count(pat)` (non-overlapping occurrences,
scanning left to right); the counter argument skips the remainder of a
counted occurrence. -/
def pyCountAux (pat : List Char) : List Char → Nat → Nat
  | [], _ => 0
  | _ :: t, k + 1 => pyCountAux pat t k
  | l@(_ :: t), 0 =>
    if pat.isPrefixOf l then 1 + pyCountAux pat t (pat.length - 1)
    else pyCountAux pat t 0

/-- Python `s.count(pat)`; an empty pattern counts `len(s) + 1` as in
Python. -/
def pyCount (s pat : List Char) : Nat :=
  if pat.isEmpty then s.length + 1 else pyCountAux pat s 0

/-- Model of Python `str.split(sep)` for a one-character separator. -/
def pySplit (sep : Char) : List Char → List (List Char)
  | [] => [[]]
  | c :: t =>
    if c = sep then [] :: pySplit sep t
    else
      match pySplit sep t with
      | [] => [[c]]
      | h :: r => (c :: h) :: r

/-- Matcher for `got:\s+(sha256-[\w+/=]+)` at one position (line 136);
returns the captured group.  The greedy `\s+` admits only the maximal
run, since the continuation starts with a non-space character. -/
def matchGotAt (l : List Char) : Option (List Char) :=
  match dropLit "got:".data l with
  | none => none
  | some r1 =>
    match takeWhile1 isWS r1 with
    | none => none
    | some (_, r2) =>
      match dropLit "sha256-".data r2 with
      | none => none
      | some r3 =>
        match takeWhile1 isHashChar r3 with
        | none => none
        | some (h, _) => some ("sha256-".data ++ h)

/-- Matcher for `unpacking source archive /build/([a-f0-9]+)\.tar\.gz`
at one position (line 146); returns the captured revision. -/
def matchRevAt (l : List Char) : Option (List Char) :=
  match dropLit "unpacking source archive /build/".data l with
  | none => none
  | some r1 =>
    match takeWhile1 isHexLower r1 with
    | none => none
    | some (h, r2) =>
      match dropLit ".tar.gz".data r2 with
      | none => none
      | some _ => some h

/-- Tail of the fallback URL pattern after the greedy `[^\s]+` part:
`/\+archive/([a-f0-9]+)\.tar\.gz`; returns the captured hex group. -/
def matchArchTail (l : List Char) : Option (List Char) :=
  match dropLit "/+archive/".data l with
  | none => none
  | some r1 =>
    match takeWhile1 isHexLower r1 with
    | none => none
    | some (h, r2) =>
      match dropLit ".tar.gz".data r2 with
      | none => none
      | some _ => some h

/-- Greedy `[^\s]+` of the URL patterns: prefer the longest nonempty
non-space prefix `X` whose continuation matches `tail`; on success
return `(X, result of tail)`. -/
def greedyNonSpace {α : Type} (tail : List Char → Option α)
    (acc : List Char) : List Char → Option (List Char × α)
  | [] => none
  | c :: rest =>
    if isWS c then none
    else
      match greedyNonSpace tail (acc ++ [c]) rest with
      | some r => some r
      | none =>
        match tail rest with
        | some a => some (acc ++ [c], a)
        | none => none

/-- Matcher for `trying (https://[^\s]+/\+archive/([a-f0-9]+)\.tar\.gz)`
at one position (line 152); returns (group 1, group 2). -/
def matchUrlAnyAt (l : List Char) : Option (List Char × List Char) :=
  match dropLit "trying https://".data l with
  | none => none
  | some r =>
    match greedyNonSpace matchArchTail [] r with
    | none => none
    | some (x, h) =>
      some ("https://".data ++ x ++ "/+archive/".data ++ h ++ ".tar.gz".data, h)

/-- Matcher for `trying (https://[^\s]+/\+archive/<rev>\.tar\.gz)` with
the revision escaped into the pattern (line 162); returns group 1. -/
def matchUrlRevAt (rev : List Char) (l : List Char) : Option (List Char) :=
  match dropLit "trying https://".data l with
  | none => none
  | some r =>
    match greedyNonSpace
        (fun t => dropLit ("/+archive/".data ++ rev ++ ".tar.gz".data) t) [] r with
    | none => none
    | some (x, _) =>
      some ("https://".data ++ x ++ "/+archive/".data ++ rev ++ ".tar.gz".data)

/-- Model of `extract_hash_mismatch_info` (lines 130-169): extract
`(rev, new_hash, url)` from build error output. -/
def extract_hash_mismatch_info (output : List Char) :
    Option (List Char) × Option (List Char) × Option (List Char) :=
  match searchIn matchGotAt output with
  | none => (none, none, none)
  | some new_hash =>
    match searchIn matchRevAt output with
    | none =>
      match searchIn matchUrlAnyAt output with
      | some (g1, g2) =>
        (some g2, some new_hash,
          some (pyReplace g1 ("/+archive/".data ++ g2 ++ ".tar.gz".data) []))
      | none => (none, some new_hash, none)
    | some rev =>
      let url : Option (List Char) :=
        match searchIn (matchUrlRevAt rev) output with
        | some g1 =>
          some (pyReplace g1 ("/+archive/".data ++ rev ++ ".tar.gz".data) [])
        | none => none
      (some rev, some new_hash, url)

/-
Data model: a parsed JSON document (`json.load` output).  Mapping keys
are kept in stored order; keys of one mapping are distinct after
`json.load`, and the operations below use the first binding of a key,
which coincides with Python dict semantics on such documents.
-/

mutual
inductive Json where
  | str : List Char → Json
  | num : Int → Json
  | bool : Bool → Json
  | null : Json
  | arr : JArr → Json
  | obj : JObj → Json
inductive JArr where
  | nil : JArr
  | cons : Json → JArr → JArr
inductive JObj where
  | nil : JObj
  | cons : List Char → Json → JObj → JObj
end

instance : Inhabited Json := ⟨Json.null⟩

instance : Inhabited JArr := ⟨JArr.nil⟩

instance : Inhabited JObj := ⟨JObj.nil⟩

/-- Python dict lookup `obj[k]` / membership `k in obj` on a mapping. -/
def jLookup : JObj → List Char → Option Json
  | .nil, _ => none
  | .cons k' v rest, k => if k' = k then some v else jLookup rest k

/-- Python dict assignment `obj[k] = v`: replace the binding in place if
the key is present, append otherwise. -/
def jSet : JObj → List Char → Json → JObj
  | .nil, k, v => .cons k v .nil
  | .cons k' v' rest, k, v =>
    if k' = k then .cons k' v rest else .cons k' v' (jSet rest k v)

/-- Eligibility test of `find_entry_by_rev` (lines 179-181): the mapping
has both a `rev` and a `hash` field, `rev` equals the target and `hash`
equals the placeholder exactly (a non-string field value never equals a
Python string). -/
def isEligible (o : JObj) (target_rev placeholder_hash : List Char) : Bool :=
  match jLookup o "rev".data, jLookup o "hash".data with
  | some (.str r), some (.str h) => r = target_rev && h = placeholder_hash
  | _, _ => false

/-- Child path for a mapping key: `f"{path}.{key}" if path else key`
(line 185). -/
def childKeyPath (path k : List Char) : List Char :=
  if path.isEmpty then k else path ++ ".".data ++ k

/-- Child path for an array index: `f"{path}[{i}]"` (line 193). -/
def childIdxPath (path : List Char) (i : Nat) : List Char :=
  path ++ "[".data ++ (Nat.repr i).data ++ "]".data

mutual
/-- Model of `search_recursive` of `find_entry_by_rev` (lines 176-198) on one
node: if a mapping is eligible return it with its path, otherwise
recurse into mapping values in stored order, then array elements by
index; the first hit terminates the search. -/
def findJ (j : Json) (path target_rev placeholder_hash : List Char) :
    Option (List Char × JObj) :=
  match j with
  | .obj o =>
    if isEligible o target_rev placeholder_hash then some (path, o)
    else findO o path target_rev placeholder_hash
  | .arr a => findA a 0 path target_rev placeholder_hash
  | _ => none
/-- Search the values of a mapping in stored key order. -/
def findO (o : JObj) (path target_rev placeholder_hash : List Char) :
    Option (List Char × JObj) :=
  match o with
  | .nil => none
  | .cons k v rest =>
    match findJ v (childKeyPath path k) target_rev placeholder_hash with
    | some r => some r
    | none => findO rest path target_rev placeholder_hash
/-- Search the elements of an array by increasing index. -/
def findA (a : JArr) (i : Nat) (path target_rev placeholder_hash : List Char) :
    Option (List Char × JObj) :=
  match a with
  | .nil => none
  | .cons v rest =>
    match findJ v (childIdxPath path i) target_rev placeholder_hash with
    | some r => some r
    | none => findA rest (i + 1) path target_rev placeholder_hash
end

/-- Model of `find_entry_by_rev(data, target_rev, placeholder_hash)`
(lines 171-200): the recursive search started with the empty path. -/
def find_entry_by_rev (data : Json) (target_rev placeholder_hash : List Char) :
    Option (List Char × JObj) :=
  findJ data [] target_rev placeholder_hash

mutual
/-- The in-place mutation `entry['hash'] = new_hash` (line 221) applied
through the alias returned by the search: rebuild the document with the
`hash` binding of the first eligible mapping replaced.  Returns `none`
when no mapping is eligible. -/
def patchJ (j : Json) (target_rev new_hash placeholder_hash : List Char) :
    Option Json :=
  match j with
  | .obj o =>
    if isEligible o target_rev placeholder_hash then
      some (.obj (jSet o "hash".data (.str new_hash)))
    else
      match patchO o target_rev new_hash placeholder_hash with
      | some o' => some (.obj o')
      | none => none
  | .arr a =>
    match patchA a target_rev new_hash placeholder_hash with
    | some a' => some (.arr a')
    | none => none
  | _ => none
/-- Patch inside the values of a mapping, stored key order. -/
def patchO (o : JObj) (target_rev new_hash placeholder_hash : List Char) :
    Option JObj :=
  match o with
  | .nil => none
  | .cons k v rest =>
    match patchJ v target_rev new_hash placeholder_hash with
    | some v' => some (.cons k v' rest)
    | none =>
      match patchO rest target_rev new_hash placeholder_hash with
      | some rest' => some (.cons k v rest')
      | none => none
/-- Patch inside the elements of an array, by increasing index. -/
def patchA (a : JArr) (target_rev new_hash placeholder_hash : List Char) :
    Option JArr :=
  match a with
  | .nil => none
  | .cons v rest =>
    match patchJ v target_rev new_hash placeholder_hash with
    | some v' => some (.cons v' rest)
    | none =>
      match patchA rest target_rev new_hash placeholder_hash with
      | some rest' => some (.cons v rest')
      | none => none
end

/-- Result of reading and parsing the manifest file inside
`update_json_by_rev`: success, `json.JSONDecodeError`, or any other
exception. -/
inductive FileRead where
  | ok : Json → FileRead
  | parseError : List Char → FileRead
  | readError : List Char → FileRead

/-- Message of the not-found branch of `update_json_by_rev` (line 215). -/
def notFoundMessage (target_rev : List Char) : List Char :=
  "No entry found with rev ".data ++ [squote] ++ target_rev ++ [squote] ++
    " and placeholder hash".data

/-- Result tuple of `update_json_by_rev`, plus the document written back
to storage (`none` when no write happens). -/
structure UpdateResult where
  success : Bool
  message : List Char
  entry_path : Option (List Char)
  written : Option Json

/-- Model of `update_json_by_rev(filepath, target_rev, new_hash,
placeholder_hash, dry_run)` (lines 202-232).  The `entry` of the tuple
returned by the search is checked with Python truthiness (`if not
entry:`), so an empty mapping would also take the not-found branch. -/
def update_json_by_rev (file : FileRead)
    (target_rev new_hash placeholder_hash : List Char) (dry_run : Bool) :
    UpdateResult :=
  match file with
  | .parseError e => ⟨false, "Invalid JSON in file: ".data ++ e, none, none⟩
  | .readError e => ⟨false, "Error updating file: ".data ++ e, none, none⟩
  | .ok data =>
    match find_entry_by_rev data target_rev placeholder_hash with
    | none => ⟨false, notFoundMessage target_rev, none, none⟩
    | some (entry_path, entry) =>
      match entry with
      | .nil => ⟨false, notFoundMessage target_rev, none, none⟩
      | .cons _ _ _ =>
        if dry_run then
          ⟨true, "Would update hash for entry at path: ".data ++ entry_path,
            some entry_path, none⟩
        else
          ⟨true, "Updated hash for entry at path: ".data ++ entry_path,
            some entry_path, patchJ data target_rev new_hash placeholder_hash⟩

/-- Python substring containment `pat in s`. -/
def containsSub (pat : List Char) : List Char → Bool
  | [] => pat.isEmpty
  | l@(_ :: t) => pat.isPrefixOf l || containsSub pat t

/-- Matcher for `github\.com/([^/]+/[^/]+)` at one position (line 245);
returns the captured group. -/
def matchGithubAt (l : List Char) : Option (List Char) :=
  match dropLit "github.com/".data l with
  | none => none
  | some r1 =>
    match takeWhile1 (fun c => c ≠ '/') r1 with
    | none => none
    | some (s1, r2) =>
      match dropLit "/".data r2 with
      | none => none
      | some r3 =>
        match takeWhile1 (fun c => c ≠ '/') r3 with
        | none => none
        | some (s2, _) => some (s1 ++ "/".data ++ s2)

/-- Matcher for `chromium\.googlesource\.com/(.+?)(?:\.git)?$` at one
position (line 249).  `.` does not match a newline, the lazy group
strips one trailing `.git` when the part before it is nonempty, and `$`
also matches just before one final newline. -/
def matchChromiumAt (l : List Char) : Option (List Char) :=
  match dropLit "chromium.googlesource.com/".data l with
  | none => none
  | some r =>
    let body := if r.getLast? = some '\n' then r.dropLast else r
    if body.isEmpty || body.contains '\n' then none
    else if ".git".data.isSuffixOf body && 4 < body.length then
      some (body.take (body.length - 4))
    else
      some body

/-- Last path segment with every `.git` occurrence removed:
`url.split('/')[-1].replace('.git', '')` (line 252). -/
def lastSegment (url : List Char) : List Char :=
  pyReplace ((pySplit '/' url).getLastD []) ".git".data []

/-- Meaningful-name extraction of `get_entry_description` from a string
`url` field (lines 243-252): the matched GitHub or chromium group when
the substring test and the search succeed, the last path segment
otherwise. -/
def descFromUrl (url : List Char) : List Char :=
  if containsSub "github.com".data url then
    match searchIn matchGithubAt url with
    | some g => g
    | none => lastSegment url
  else if containsSub "chromium.googlesource.com".data url then
    match searchIn matchChromiumAt url with
    | some g => g
    | none => lastSegment url
  else lastSegment url

/-- Truncated-revision fallback `rev[:12] + "..."` (lines 253, 255). -/
def truncatedRev (rev : List Char) : List Char :=
  rev.take 12 ++ "...".data

/-- Model of `get_entry_description(filepath, rev)` (lines 234-255).  The lookup
hard-codes the module constant `PLACEHOLDER_HASH` (line 240).  The bare
`except` returns the fallback on read or parse failure, and a non-string
`url` value also ends in the fallback (every operation applied to it
either returns no match or raises, and the raise is swallowed by the
bare `except`). -/
def get_entry_description (file : FileRead) (rev : List Char) : List Char :=
  match file with
  | .ok data =>
    match find_entry_by_rev data rev PLACEHOLDER_HASH with
    | some (_, entry) =>
      match entry with
      | .nil => truncatedRev rev
      | .cons _ _ _ =>
        match jLookup entry "url".data with
        | some (.str url) => descFromUrl url
        | some _ => truncatedRev rev
        | none => truncatedRev rev
    | none => truncatedRev rev
  | _ => truncatedRev rev

/-- Model of `count_remaining_placeholders(filepath, placeholder_hash)`
(lines 257-264): count substring occurrences in the raw file text; any
exception while reading yields zero. -/
def count_remaining_placeholders (file : Except (List Char) (List Char))
    (placeholder_hash : List Char) : Nat :=
  match file with
  | .error _ => 0
  | .ok content => pyCount content placeholder_hash

/-
Serialization: `json.dump(data, f, indent=2)` (line 225), the format of
the manifest file after a write.  Default `json.dump` options: 2-space
indentation, separators `","` and `": "`, `ensure_ascii` escaping.
-/

/-- Lowercase hex digit. -/
def hexDigit (n : Nat) : Char :=
  if n < 10 then Char.ofNat (48 + n) else Char.ofNat (87 + n)

/-- Four lowercase hex digits. -/
def hex4 (n : Nat) : List Char :=
  [hexDigit (n / 4096 % 16), hexDigit (n / 256 % 16),
   hexDigit (n / 16 % 16), hexDigit (n % 16)]

/-- The `\uXXXX` escape of one character, as a surrogate pair beyond the
basic multilingual plane. -/
def uniEscape (n : Nat) : List Char :=
  if n < 65536 then "\\u".data ++ hex4 n
  else
    "\\u".data ++ hex4 (55296 + (n - 65536) / 1024) ++
      "\\u".data ++ hex4 (56320 + (n - 65536) % 1024)

/-- JSON escape of one character with `ensure_ascii`: characters between
space and tilde stand for themselves except quote and backslash; the
short escapes cover backspace, tab, newline, form feed, carriage return;
everything else becomes `\uXXXX`. -/
def escChar (c : Char) : List Char :=
  if c = '"' then "\\\"".data
  else if c = '\\' then "\\\\".data
  else if c = '\x08' then "\\b".data
  else if c = '\t' then "\\t".data
  else if c = '\n' then "\\n".data
  else if c = '\x0c' then "\\f".data
  else if c = '\r' then "\\r".data
  else if ' ' ≤ c && c ≤ '~' then [c]
  else uniEscape c.toNat

/-- JSON string literal. -/
def encodeStr (s : List Char) : List Char :=
  "\"".data ++ s.foldr (fun c acc => escChar c ++ acc) [] ++ "\"".data

/-- Indentation of one level: `2 * lvl` spaces. -/
def indentOf (lvl : Nat) : List Char :=
  List.replicate (2 * lvl) ' '

mutual
/-- Serialize a node whose own lines are indented at `lvl`. -/
def dumpJ (lvl : Nat) : Json → List Char
  | .str s => encodeStr s
  | .num n => (Int.repr n).data
  | .bool b => if b then "true".data else "false".data
  | .null => "null".data
  | .arr .nil => "[]".data
  | .arr (.cons v rest) =>
    "[\n".data ++ dumpA (lvl + 1) (.cons v rest) ++ "\n".data ++
      indentOf lvl ++ "]".data
  | .obj .nil => "\x7b\x7d".data
  | .obj (.cons k v rest) =>
    "\x7b\n".data ++ dumpO (lvl + 1) (.cons k v rest) ++ "\n".data ++
      indentOf lvl ++ "\x7d".data
/-- Serialize array items at `lvl`, separated by `",\n"`. -/
def dumpA (lvl : Nat) : JArr → List Char
  | .nil => []
  | .cons v .nil => indentOf lvl ++ dumpJ lvl v
  | .cons v (.cons w rest) =>
    indentOf lvl ++ dumpJ lvl v ++ ",\n".data ++ dumpA lvl (.cons w rest)
/-- Serialize mapping items at `lvl`, separated by `",\n"`. -/
def dumpO (lvl : Nat) : JObj → List Char
  | .nil => []
  | .cons k v .nil => indentOf lvl ++ encodeStr k ++ ": ".data ++ dumpJ lvl v
  | .cons k v (.cons k' w rest) =>
    indentOf lvl ++ encodeStr k ++ ": ".data ++ dumpJ lvl v ++ ",\n".data ++
      dumpO lvl (.cons k' w rest)
end

/-- Model of `json.dump(data, f, indent=2)`: the text written to the manifest. -/
def dumps (data : Json) : List Char :=
  dumpJ 0 data

/-
FixLoop orchestrator (`main`, lines 299-496): the per-iteration step and
the bounded `for` loop, modelled over the data the loop consumes and
mutates.  The external build command is an oracle giving the result of
the j-th build attempt.  The manifest file of the loop is carried as the
raw text (`text`, what `count_remaining_placeholders` reads) together
with the parsed document (`doc`, what `update_json_by_rev` and
`get_entry_description` obtain by parsing that text); a write stores
`dumps` of the patched document in both forms.
-/

/-- The command-line data the loop depends on. -/
structure Args where
  dry_run : Bool
  max_iterations : Nat
  placeholder_hash : List Char

/-- The exit status and captured output of one build attempt. -/
structure BuildResult where
  returncode : Int
  stdout : List Char
  stderr : List Char

/-- Mutable state of one run of the loop. -/
structure LoopState where
  text : List Char
  doc : Json
  replacements : List (List Char × List Char × List Char)
  processed : List (List Char)

/-- How a run of the loop ends: `break` on a successful build
(line 385), `break` when a dry run has replaced every placeholder
(line 437), fall-through of the `for` (line 472), or `sys.exit(1)` on a
build failure without hash mismatch (line 470). -/
inductive EndKind where
  | success : EndKind
  | previewComplete : EndKind
  | exhaustedIterations : EndKind
  | unrecoverableBuildFailure : EndKind

/-- One iteration either falls through to the next, or ends the run. -/
inductive StepResult where
  | next : LoopState → StepResult
  | stop : EndKind → LoopState → StepResult

/-- One iteration of the main loop (lines 355-470). -/
def loopStep (args : Args) (b : BuildResult) (s : LoopState) : StepResult :=
  if b.returncode = 0 then .stop .success s
  else
    let r := extract_hash_mismatch_info b.stderr
    let rev? := r.1
    let new_hash? := r.2.1
    if pyTruthy new_hash? && pyTruthy rev? then
      let rev := rev?.getD []
      let new_hash := new_hash?.getD []
      if rev ∈ s.processed then .next s
      else
        let processed' := rev :: s.processed
        let description := get_entry_description (.ok s.doc) rev
        let u := update_json_by_rev (.ok s.doc) rev new_hash
          args.placeholder_hash args.dry_run
        if u.success then
          let replacements' := s.replacements ++ [(rev, new_hash, description)]
          let text' := match u.written with
            | some d => dumps d
            | none => s.text
          let doc' := match u.written with
            | some d => d
            | none => s.doc
          let s' : LoopState := ⟨text', doc', replacements', processed'⟩
          let remaining := count_remaining_placeholders (.ok text')
            args.placeholder_hash
          if remaining = 0 && args.dry_run then .stop .previewComplete s'
          else .next s'
        else .next ⟨s.text, s.doc, s.replacements, processed'⟩
    else if pyTruthy new_hash? then .next s
    else .stop .unrecoverableBuildFailure s

/-- How the process leaves the loop, with the final state and the number
of build attempts made. -/
structure RunResult where
  kind : EndKind
  state : LoopState
  buildsRun : Nat

/-- Model of `for iteration in range(...)` with its `else` clause: run up to
`fuel` more iterations starting at attempt index `i`; exhausting the
range ends in `ExhaustedIterations`. -/
def runAux (args : Args) (builds : Nat → BuildResult) :
    Nat → Nat → LoopState → RunResult
  | 0, i, s => ⟨.exhaustedIterations, s, i⟩
  | fuel + 1, i, s =>
    match loopStep args (builds i) s with
    | .stop k s' => ⟨k, s', i + 1⟩
    | .next s' => runAux args builds fuel (i + 1) s'

/-- The whole iteration loop of `main` (lines 355-476). -/
def runLoop (args : Args) (builds : Nat → BuildResult) (s0 : LoopState) :
    RunResult :=
  runAux args builds args.max_iterations 0 s0

/-- The data of the end-of-run summary (lines 282-297): the count of
entries updated and the ordered `(rev, new_hash, description)` records. -/
structure Summary where
  total : Nat
  entries : List (List Char × List Char × List Char)

/-- Model of `print_summary(replacements, total_time)` (lines 282-297). -/
def print_summary (replacements : List (List Char × List Char × List Char)) :
    Summary :=
  ⟨replacements.length, replacements⟩

/-- The summary the run produces, if any: `print_summary` (line 480) is
reached after the loop ends by `break` or by exhausting its range, but
`sys.exit(1)` inside the build-failed-for-another-reason branch
(line 470) terminates the process before it. -/
def mainSummary (args : Args) (builds : Nat → BuildResult) (s0 : LoopState) :
    Option Summary :=
  match runLoop args builds s0 with
  | ⟨.unrecoverableBuildFailure, _, _⟩ => none
  | ⟨_, s, _⟩ => some (print_summary s.replacements)

/-
Specification-side notions, for stating the claims: the document-order
list of mapping nodes (depth-first, mapping keys in stored order, array
elements by index) and the count of eligible mapping nodes.
-/

mutual
/-- Modelled from the spec: all mapping nodes of a document in
depth-first document order, each with the structural path the search
would report for it. -/
def preJ : Json → List Char → List (List Char × JObj)
  | .obj o, path => (path, o) :: preO o path
  | .arr a, path => preA a 0 path
  | _, _ => []
/-- Mapping nodes inside the values of a mapping, stored key order. -/
def preO : JObj → List Char → List (List Char × JObj)
  | .nil, _ => []
  | .cons k v rest, path => preJ v (childKeyPath path k) ++ preO rest path
/-- Mapping nodes inside the elements of an array, by increasing index. -/
def preA : JArr → Nat → List Char → List (List Char × JObj)
  | .nil, _, _ => []
  | .cons v rest, i, path => preJ v (childIdxPath path i) ++ preA rest (i + 1) path
end

/-- Modelled from the spec: the mapping nodes of a document in document
order, with their structural paths. -/
def mappingNodes (data : Json) : List (List Char × JObj) :=
  preJ data []

/-- Modelled from the spec: how many mapping nodes of the document are
eligible for a `(rev, placeholder)` pair; the data-model invariant of
the spec asks for at most one. -/
def countEligible (data : Json) (target_rev placeholder_hash : List Char) : Nat :=
  ((mappingNodes data).filter
    (fun pe => isEligible pe.2 target_rev placeholder_hash)).length

/-- Modelled from the spec: the number of substring occurrences of
`pat` in `s`, as the number of suffixes of `s` that start with `pat`. -/
def substrOccurrences (s pat : List Char) : Nat :=
  (s.tails.filter (fun t => pat.isPrefixOf t)).length

/-- An occurrence of `pat` at position `i` of `s`. -/
def occursAt (s pat : List Char) (i : Nat) : Prop :=
  pat <+: s.drop i

/-- No two occurrences of `pat` in `s` overlap (any pattern without a
nonempty proper border, such as the default placeholder, satisfies this
for every text). -/
def DisjointOccurrences (s pat : List Char) : Prop :=
  ∀ i < s.length, ∀ j < s.length, i < j →
    occursAt s pat i → occursAt s pat j → i + pat.length ≤ j

/-
Concrete fixtures used by witnesses and counterexamples.
-/

/-- A manifest entry with a placeholder hash. -/
def demoEntry : JObj :=
  .cons "rev".data (.str "abc123".data)
    (.cons "hash".data (.str PLACEHOLDER_HASH)
      (.cons "url".data (.str "https://github.com/org/repo".data) .nil))

/-- A manifest document holding `demoEntry` at path `deps[0]`. -/
def demoDoc : Json :=
  .obj (.cons "deps".data (.arr (.cons (.obj demoEntry) .nil)) .nil)

/-- An entry that violates the uniqueness invariant when duplicated. -/
def dupEntry : JObj :=
  .cons "rev".data (.str "ff00".data)
    (.cons "hash".data (.str PLACEHOLDER_HASH) .nil)

/-- State of `dupEntry` after its hash was replaced. -/
def dupEntryPatched : JObj :=
  .cons "rev".data (.str "ff00".data)
    (.cons "hash".data (.str "sha256-NEW=".data) .nil)

/-- A document with two entries for the same `(rev, placeholder)`. -/
def dupDoc : Json :=
  .arr (.cons (.obj dupEntry) (.cons (.obj dupEntry) .nil))

/-- State of `dupDoc` after one patch: only the first entry changed. -/
def dupDocPatched : Json :=
  .arr (.cons (.obj dupEntryPatched) (.cons (.obj dupEntry) .nil))

/-- State of `demoEntry` after its hash was replaced by the computed one. -/
def demoEntryPatched : JObj :=
  .cons "rev".data (.str "abc123".data)
    (.cons "hash".data (.str "sha256-NEWHASH=".data)
      (.cons "url".data (.str "https://github.com/org/repo".data) .nil))

/-- State of `demoDoc` after the patch. -/
def demoDocPatched : Json :=
  .obj (.cons "deps".data (.arr (.cons (.obj demoEntryPatched) .nil)) .nil)

/-- Loop arguments of the witness runs: no preview, three iterations. -/
def demoArgs : Args :=
  ⟨false, 3, PLACEHOLDER_HASH⟩

/-- The loop state over `demoDoc`. -/
def demoState : LoopState :=
  ⟨dumps demoDoc, demoDoc, [], []⟩

/-- A successful build. -/
def goodBuild : BuildResult :=
  ⟨0, [], []⟩

/-- A build failing with the hash-mismatch diagnostic for `abc123`. -/
def mismatchBuild : BuildResult :=
  ⟨1, [], "got: sha256-NEWHASH= \nunpacking source archive /build/abc123.tar.gz".data⟩

/-- A build failing without any hash-mismatch diagnostic. -/
def unrelatedBuild : BuildResult :=
  ⟨1, [], "error: linker failed".data⟩

theorem find?_append_match {α : Type} (p : α → Bool) (l₁ l₂ : List α) :
    (l₁ ++ l₂).find? p =
      (match l₁.find? p with
       | some x => some x
       | none => l₂.find? p) := by
  induction l₁ with
  | nil => simp
  | cons a t ih =>
    by_cases h : p a
    · simp [List.find?_cons_of_pos _ h]
    · simp [List.find?_cons_of_neg _ h, ih]

mutual
theorem findJ_eq_find? (j : Json) (path target_rev placeholder_hash : List Char) :
    findJ j path target_rev placeholder_hash =
      (preJ j path).find? (fun pe => isEligible pe.2 target_rev placeholder_hash) := by
  cases j with
  | str s => simp [findJ, preJ]
  | num n => simp [findJ, preJ]
  | bool b => simp [findJ, preJ]
  | null => simp [findJ, preJ]
  | arr a => simpa [findJ, preJ] using findA_eq_find? a 0 path target_rev placeholder_hash
  | obj o =>
    by_cases h : isEligible o target_rev placeholder_hash
    · simp [findJ, preJ, h, List.find?_cons_of_pos]
    · simpa [findJ, preJ, h, List.find?_cons_of_neg] using
        findO_eq_find? o path target_rev placeholder_hash
theorem findO_eq_find? (o : JObj) (path target_rev placeholder_hash : List Char) :
    findO o path target_rev placeholder_hash =
      (preO o path).find? (fun pe => isEligible pe.2 target_rev placeholder_hash) := by
  cases o with
  | nil => simp [findO, preO]
  | cons k v rest =>
    rw [findO, preO, find?_append_match,
      ← findJ_eq_find? v (childKeyPath path k) target_rev placeholder_hash,
      ← findO_eq_find? rest path target_rev placeholder_hash]
    cases findJ v (childKeyPath path k) target_rev placeholder_hash <;> rfl
theorem findA_eq_find? (a : JArr) (i : Nat) (path target_rev placeholder_hash : List Char) :
    findA a i path target_rev placeholder_hash =
      (preA a i path).find? (fun pe => isEligible pe.2 target_rev placeholder_hash) := by
  cases a with
  | nil => simp [findA, preA]
  | cons v rest =>
    rw [findA, preA, find?_append_match,
      ← findJ_eq_find? v (childIdxPath path i) target_rev placeholder_hash,
      ← findA_eq_find? rest (i + 1) path target_rev placeholder_hash]
    cases findJ v (childIdxPath path i) target_rev placeholder_hash <;> rfl
end

theorem isEligible_iff (o : JObj) (target_rev placeholder_hash : List Char) :
    isEligible o target_rev placeholder_hash = true ↔
      jLookup o "rev".data = some (.str target_rev) ∧
        jLookup o "hash".data = some (.str placeholder_hash) := by
  unfold isEligible
  rcases h1 : jLookup o "rev".data with _ | v1
  · simp
  · rcases h2 : jLookup o "hash".data with _ | v2
    · cases v1 <;> simp
    · cases v1 <;> cases v2 <;>
        simp [Bool.and_eq_true, decide_eq_true_eq]

/-- C3: for every document, target revision and placeholder, the locator
returns at most one entry (the first eligible mapping node in
depth-first document order — mapping keys in stored order, array
elements by index — so the first match terminates the search), and any
returned entry has a `rev` field equal to the target and a `hash` field
equal to the placeholder exactly. -/
theorem locator_first_eligible_in_document_order
    (data : Json) (target_rev placeholder_hash : List Char) :
    find_entry_by_rev data target_rev placeholder_hash =
      (mappingNodes data).find?
        (fun pe => isEligible pe.2 target_rev placeholder_hash) ∧
    ∀ p e, find_entry_by_rev data target_rev placeholder_hash = some (p, e) →
      jLookup e "rev".data = some (.str target_rev) ∧
      jLookup e "hash".data = some (.str placeholder_hash) := by
  constructor
  · exact findJ_eq_find? data [] target_rev placeholder_hash
  · intro p e hf
    rw [find_entry_by_rev, findJ_eq_find? data [] target_rev placeholder_hash] at hf
    have h := List.find?_some hf
    exact (isEligible_iff e target_rev placeholder_hash).mp (by simpa using h)

/-- Witness for C3 at a concrete document: the located entry and its
field values. -/
theorem locator_first_eligible_witness :
    find_entry_by_rev demoDoc "abc123".data PLACEHOLDER_HASH =
      some ("deps[0]".data, demoEntry) ∧
    jLookup demoEntry "rev".data = some (.str "abc123".data) ∧
    jLookup demoEntry "hash".data = some (.str PLACEHOLDER_HASH) :=
  ⟨rfl,
   (locator_first_eligible_in_document_order demoDoc "abc123".data
      PLACEHOLDER_HASH).2 "deps[0]".data demoEntry rfl⟩

theorem jLookup_jSet_self : ∀ (o : JObj) (k : List Char) (v : Json),
    jLookup (jSet o k v) k = some v
  | .nil, k, v => by simp [jSet, jLookup]
  | .cons k' v' rest, k, v => by
    by_cases h : k' = k
    · simp [jSet, h, jLookup]
    · simp [jSet, h, jLookup, jLookup_jSet_self rest k v]

theorem isEligible_jSet_hash (o : JObj) (target_rev new_hash placeholder_hash : List Char)
    (hneq : new_hash ≠ placeholder_hash) :
    isEligible (jSet o "hash".data (.str new_hash)) target_rev placeholder_hash = false := by
  rw [← Bool.not_eq_true, isEligible_iff]
  rintro ⟨-, h2⟩
  rw [jLookup_jSet_self] at h2
  exact hneq (by simpa using h2)

theorem preO_jSet_hash : ∀ (o : JObj) (path target_rev new_hash old : List Char),
    jLookup o "hash".data = some (.str old) →
    preO (jSet o "hash".data (.str new_hash)) path = preO o path
  | .nil, path, target_rev, new_hash, old, hold => by simp [jLookup] at hold
  | .cons k' v' rest, path, target_rev, new_hash, old, hold => by
    by_cases h : k' = "hash".data
    · rw [jLookup, if_pos h] at hold
      cases hold
      simp [jSet, h, preO, preJ]
    · rw [jLookup, if_neg h] at hold
      simp [jSet, h, preO,
        preO_jSet_hash rest path target_rev new_hash old hold]

/-- A patched node keeps its constructor: only mappings and arrays can
contain an eligible node. -/
theorem patchJ_shape (j : Json) (target_rev new_hash placeholder_hash : List Char)
    (j' : Json) (h : patchJ j target_rev new_hash placeholder_hash = some j') :
    (∃ o o', j = .obj o ∧ j' = .obj o') ∨ (∃ a a', j = .arr a ∧ j' = .arr a') := by
  cases j with
  | obj o =>
    left
    rw [patchJ] at h
    by_cases he : isEligible o target_rev placeholder_hash
    · rw [if_pos he] at h
      exact ⟨o, _, rfl, by simpa using h.symm⟩
    · rw [if_neg he] at h
      cases ho : patchO o target_rev new_hash placeholder_hash with
      | none => rw [ho] at h; simp at h
      | some o' => rw [ho] at h; exact ⟨o, o', rfl, by simpa using h.symm⟩
  | arr a =>
    right
    rw [patchJ] at h
    cases ha : patchA a target_rev new_hash placeholder_hash with
    | none => rw [ha] at h; simp at h
    | some a' => rw [ha] at h; exact ⟨a, a', rfl, by simpa using h.symm⟩
  | str s => simp [patchJ] at h
  | num n => simp [patchJ] at h
  | bool b => simp [patchJ] at h
  | null => simp [patchJ] at h

/-- Patching inside the values of a mapping does not change which keys
look up to which string leaves. -/
theorem patchO_jLookup_str (target_rev new_hash placeholder_hash : List Char) :
    ∀ (o o' : JObj),
      patchO o target_rev new_hash placeholder_hash = some o' →
      ∀ (k s : List Char),
        jLookup o k = some (.str s) ↔ jLookup o' k = some (.str s)
  | .nil, o', h => by rw [patchO] at h; simp at h
  | .cons k0 v rest, o', h => by
    rw [patchO] at h
    cases hv : patchJ v target_rev new_hash placeholder_hash with
    | some v' =>
      rw [hv] at h
      have hob := Option.some.inj h
      intro k s
      by_cases hk : k0 = k
      · subst hob
        rw [jLookup, if_pos hk, jLookup, if_pos hk]
        rcases patchJ_shape v target_rev new_hash placeholder_hash v' hv with
          ⟨o1, o2, rfl, rfl⟩ | ⟨a1, a2, rfl, rfl⟩ <;> simp
      · subst hob
        rw [jLookup, if_neg hk, jLookup, if_neg hk]
    | none =>
      rw [hv] at h
      cases hrest : patchO rest target_rev new_hash placeholder_hash with
      | none => rw [hrest] at h; simp at h
      | some rest' =>
        rw [hrest] at h
        have hob := Option.some.inj h
        intro k s
        by_cases hk : k0 = k
        · subst hob
          rw [jLookup, if_pos hk, jLookup, if_pos hk]
        · subst hob
          rw [jLookup, if_neg hk, jLookup, if_neg hk]
          exact patchO_jLookup_str target_rev new_hash placeholder_hash rest rest' hrest k s

/-- Patching inside the values of a mapping does not change the
mapping's own eligibility. -/
theorem patchO_isEligible (o o' : JObj) (target_rev new_hash placeholder_hash rev ph : List Char)
    (h : patchO o target_rev new_hash placeholder_hash = some o') :
    isEligible o' rev ph = isEligible o rev ph := by
  have hiff := patchO_jLookup_str target_rev new_hash placeholder_hash o o' h
  rcases hb : isEligible o rev ph with _ | _
  · rw [← Bool.not_eq_true] at hb ⊢
    rw [isEligible_iff] at hb ⊢
    rintro ⟨h1, h2⟩
    exact hb ⟨(hiff "rev".data rev).mpr h1, (hiff "hash".data ph).mpr h2⟩
  · rw [isEligible_iff] at hb ⊢
    exact ⟨(hiff "rev".data rev).mp hb.1, (hiff "hash".data ph).mp hb.2⟩

mutual
theorem patchJ_count (target_rev new_hash placeholder_hash : List Char)
    (hneq : new_hash ≠ placeholder_hash) (j : Json) : ∀ (path : List Char),
    (patchJ j target_rev new_hash placeholder_hash = none →
      ((preJ j path).filter
        (fun pe => isEligible pe.2 target_rev placeholder_hash)).length = 0) ∧
    (∀ j', patchJ j target_rev new_hash placeholder_hash = some j' →
      ((preJ j' path).filter
        (fun pe => isEligible pe.2 target_rev placeholder_hash)).length + 1 =
      ((preJ j path).filter
        (fun pe => isEligible pe.2 target_rev placeholder_hash)).length) := by
  intro path
  cases j with
  | str s => exact ⟨fun _ => by simp [preJ], fun j' h => by simp [patchJ] at h⟩
  | num n => exact ⟨fun _ => by simp [preJ], fun j' h => by simp [patchJ] at h⟩
  | bool b => exact ⟨fun _ => by simp [preJ], fun j' h => by simp [patchJ] at h⟩
  | null => exact ⟨fun _ => by simp [preJ], fun j' h => by simp [patchJ] at h⟩
  | obj o =>
    by_cases he : isEligible o target_rev placeholder_hash
    · refine ⟨fun h => by rw [patchJ, if_pos he] at h; simp at h, ?_⟩
      intro j' h
      rw [patchJ, if_pos he] at h
      have hj' := Option.some.inj h
      subst hj'
      obtain ⟨-, hhash⟩ := (isEligible_iff o target_rev placeholder_hash).mp he
      rw [preJ, preJ, List.filter_cons, List.filter_cons]
      simp only [isEligible_jSet_hash o target_rev new_hash placeholder_hash hneq, he,
        preO_jSet_hash o path target_rev new_hash placeholder_hash hhash]
      simp
    · have ho := patchO_count target_rev new_hash placeholder_hash hneq o path
      constructor
      · intro h
        rw [patchJ, if_neg he] at h
        rcases hp : patchO o target_rev new_hash placeholder_hash with _ | o'
        · rw [preJ, List.filter_cons]
          simp only [he]
          simpa using ho.1 hp
        · rw [hp] at h; simp at h
      · intro j' h
        rw [patchJ, if_neg he] at h
        rcases hp : patchO o target_rev new_hash placeholder_hash with _ | o'
        · rw [hp] at h; simp at h
        · rw [hp] at h
          have hj' := Option.some.inj h
          subst hj'
          rw [preJ, preJ, List.filter_cons, List.filter_cons]
          simp only [patchO_isEligible o o' target_rev new_hash placeholder_hash
            target_rev placeholder_hash hp, he]
          simpa using ho.2 o' hp
  | arr a =>
    have ha := patchA_count target_rev new_hash placeholder_hash hneq a path 0
    constructor
    · intro h
      rw [patchJ] at h
      rcases hp : patchA a target_rev new_hash placeholder_hash with _ | a'
      · simpa [preJ] using ha.1 hp
      · rw [hp] at h; simp at h
    · intro j' h
      rw [patchJ] at h
      rcases hp : patchA a target_rev new_hash placeholder_hash with _ | a'
      · rw [hp] at h; simp at h
      · rw [hp] at h
        have hj' := Option.some.inj h
        subst hj'
        simpa [preJ] using ha.2 a' hp
theorem patchO_count (target_rev new_hash placeholder_hash : List Char)
    (hneq : new_hash ≠ placeholder_hash) (o : JObj) : ∀ (path : List Char),
    (patchO o target_rev new_hash placeholder_hash = none →
      ((preO o path).filter
        (fun pe => isEligible pe.2 target_rev placeholder_hash)).length = 0) ∧
    (∀ o', patchO o target_rev new_hash placeholder_hash = some o' →
      ((preO o' path).filter
        (fun pe => isEligible pe.2 target_rev placeholder_hash)).length + 1 =
      ((preO o path).filter
        (fun pe => isEligible pe.2 target_rev placeholder_hash)).length) := by
  intro path
  cases o with
  | nil => exact ⟨fun _ => by simp [preO], fun o' h => by simp [patchO] at h⟩
  | cons k v rest =>
    have hv := patchJ_count target_rev new_hash placeholder_hash hneq v (childKeyPath path k)
    have hrest := patchO_count target_rev new_hash placeholder_hash hneq rest path
    constructor
    · intro h
      rw [patchO] at h
      rcases hpv : patchJ v target_rev new_hash placeholder_hash with _ | v'
      · rw [hpv] at h
        rcases hpr : patchO rest target_rev new_hash placeholder_hash with _ | rest'
        · rw [preO, List.filter_append, List.length_append, hv.1 hpv, hrest.1 hpr]
        · rw [hpr] at h; simp at h
      · rw [hpv] at h; simp at h
    · intro o' h
      rw [patchO] at h
      rcases hpv : patchJ v target_rev new_hash placeholder_hash with _ | v'
      · rw [hpv] at h
        rcases hpr : patchO rest target_rev new_hash placeholder_hash with _ | rest'
        · rw [hpr] at h; simp at h
        · rw [hpr] at h
          have ho' := Option.some.inj h
          subst ho'
          rw [preO, preO, List.filter_append, List.filter_append,
            List.length_append, List.length_append, hv.1 hpv]
          have := hrest.2 rest' hpr
          omega
      · rw [hpv] at h
        have ho' := Option.some.inj h
        subst ho'
        rw [preO, preO, List.filter_append, List.filter_append,
          List.length_append, List.length_append]
        have := hv.2 v' hpv
        omega
theorem patchA_count (target_rev new_hash placeholder_hash : List Char)
    (hneq : new_hash ≠ placeholder_hash) (a : JArr) : ∀ (path : List Char) (i : Nat),
    (patchA a target_rev new_hash placeholder_hash = none →
      ((preA a i path).filter
        (fun pe => isEligible pe.2 target_rev placeholder_hash)).length = 0) ∧
    (∀ a', patchA a target_rev new_hash placeholder_hash = some a' →
      ((preA a' i path).filter
        (fun pe => isEligible pe.2 target_rev placeholder_hash)).length + 1 =
      ((preA a i path).filter
        (fun pe => isEligible pe.2 target_rev placeholder_hash)).length) := by
  intro path i
  cases a with
  | nil => exact ⟨fun _ => by simp [preA], fun a' h => by simp [patchA] at h⟩
  | cons v rest =>
    have hv := patchJ_count target_rev new_hash placeholder_hash hneq v (childIdxPath path i)
    have hrest := patchA_count target_rev new_hash placeholder_hash hneq rest path (i + 1)
    constructor
    · intro h
      rw [patchA] at h
      rcases hpv : patchJ v target_rev new_hash placeholder_hash with _ | v'
      · rw [hpv] at h
        rcases hpr : patchA rest target_rev new_hash placeholder_hash with _ | rest'
        · rw [preA, List.filter_append, List.length_append, hv.1 hpv, hrest.1 hpr]
        · rw [hpr] at h; simp at h
      · rw [hpv] at h; simp at h
    · intro a' h
      rw [patchA] at h
      rcases hpv : patchJ v target_rev new_hash placeholder_hash with _ | v'
      · rw [hpv] at h
        rcases hpr : patchA rest target_rev new_hash placeholder_hash with _ | rest'
        · rw [hpr] at h; simp at h
        · rw [hpr] at h
          have ha' := Option.some.inj h
          subst ha'
          rw [preA, preA, List.filter_append, List.filter_append,
            List.length_append, List.length_append, hv.1 hpv]
          have := hrest.2 rest' hpr
          omega
      · rw [hpv] at h
        have ha' := Option.some.inj h
        subst ha'
        rw [preA, preA, List.filter_append, List.filter_append,
          List.length_append, List.length_append]
        have := hv.2 v' hpv
        omega
end

theorem find_none_iff_countEligible_zero (data : Json)
    (target_rev placeholder_hash : List Char) :
    find_entry_by_rev data target_rev placeholder_hash = none ↔
      countEligible data target_rev placeholder_hash = 0 := by
  rw [find_entry_by_rev, findJ_eq_find? data [] target_rev placeholder_hash,
    countEligible]
  rw [List.find?_eq_none, List.length_eq_zero, List.filter_eq_nil_iff]
  simp [mappingNodes]

theorem find_some_eligible (data : Json) (target_rev placeholder_hash p : List Char)
    (e : JObj) (hf : find_entry_by_rev data target_rev placeholder_hash = some (p, e)) :
    isEligible e target_rev placeholder_hash = true := by
  rw [find_entry_by_rev, findJ_eq_find? data [] target_rev placeholder_hash] at hf
  simpa using List.find?_some hf

theorem isEligible_nil (target_rev placeholder_hash : List Char) :
    isEligible .nil target_rev placeholder_hash = false := by
  simp [isEligible, jLookup]

/-- C4 (amended): under the data-model uniqueness invariant — at most
one eligible entry for the `(revision, placeholder)` pair — a
successful non-preview patch with a new hash distinct from the
placeholder leaves a document in which a locate for the same pair
returns not-found, so patching the same pair twice is prevented. -/
theorem patch_self_extinguishing (data : Json)
    (target_rev new_hash placeholder_hash : List Char) (d' : Json)
    (huniq : countEligible data target_rev placeholder_hash ≤ 1)
    (hneq : new_hash ≠ placeholder_hash)
    (hw : (update_json_by_rev (.ok data) target_rev new_hash placeholder_hash
            false).written = some d') :
    find_entry_by_rev d' target_rev placeholder_hash = none := by
  have hp : patchJ data target_rev new_hash placeholder_hash = some d' := by
    rcases hf : find_entry_by_rev data target_rev placeholder_hash with _ | pe
    · rw [update_json_by_rev] at hw
      rw [hf] at hw
      simp at hw
    · rcases pe with ⟨p, e⟩
      rcases he : e with _ | ⟨k, v, rest⟩
      · rw [update_json_by_rev] at hw
        rw [hf, he] at hw
        simp at hw
      · rw [update_json_by_rev] at hw
        rw [hf, he] at hw
        simpa using hw
  have hc := (patchJ_count target_rev new_hash placeholder_hash hneq data []).2 d' hp
  have hz : countEligible d' target_rev placeholder_hash = 0 := by
    have h1 : countEligible d' target_rev placeholder_hash =
        ((preJ d' []).filter
          (fun pe => isEligible pe.2 target_rev placeholder_hash)).length := rfl
    have h2 : countEligible data target_rev placeholder_hash =
        ((preJ data []).filter
          (fun pe => isEligible pe.2 target_rev placeholder_hash)).length := rfl
    omega
  exact (find_none_iff_countEligible_zero d' target_rev placeholder_hash).mpr hz

/-- Witness for C4 at the concrete single-entry document. -/
theorem patch_self_extinguishing_witness :
    find_entry_by_rev demoDocPatched "abc123".data PLACEHOLDER_HASH = none :=
  patch_self_extinguishing demoDoc "abc123".data "sha256-NEWHASH=".data
    PLACEHOLDER_HASH demoDocPatched (by decide) (by decide) rfl

/-- Counterexample to C4 as stated: with two entries for the same
`(rev, placeholder)` pair, a successful non-preview patch with a fresh
hash still leaves a document in which the same locate finds the second
entry. -/
theorem patch_not_self_extinguishing_on_duplicates :
    (update_json_by_rev (.ok dupDoc) "ff00".data "sha256-NEW=".data
      PLACEHOLDER_HASH false).success = true ∧
    (update_json_by_rev (.ok dupDoc) "ff00".data "sha256-NEW=".data
      PLACEHOLDER_HASH false).written = some dupDocPatched ∧
    "sha256-NEW=".data ≠ PLACEHOLDER_HASH ∧
    find_entry_by_rev dupDocPatched "ff00".data PLACEHOLDER_HASH =
      some ("[1]".data, dupEntry) :=
  ⟨rfl, rfl, by decide, rfl⟩

/-- C5: the patcher mutates stored content only when an eligible entry
is found and preview mode is off; a missed locate yields failure with
the not-found message and no write, and preview mode yields success
describing the change with no write. -/
theorem patcher_mutation_guard (data : Json)
    (target_rev new_hash placeholder_hash : List Char) (dry_run : Bool) :
    (find_entry_by_rev data target_rev placeholder_hash = none →
      update_json_by_rev (.ok data) target_rev new_hash placeholder_hash dry_run =
        ⟨false, notFoundMessage target_rev, none, none⟩) ∧
    (∀ p e, find_entry_by_rev data target_rev placeholder_hash = some (p, e) →
      update_json_by_rev (.ok data) target_rev new_hash placeholder_hash true =
        ⟨true, "Would update hash for entry at path: ".data ++ p, some p, none⟩) ∧
    ((update_json_by_rev (.ok data) target_rev new_hash placeholder_hash
        dry_run).written ≠ none →
      dry_run = false ∧ find_entry_by_rev data target_rev placeholder_hash ≠ none) := by
  refine ⟨?_, ?_, ?_⟩
  · intro hf
    rw [update_json_by_rev, hf]
  · intro p e hf
    have he := find_some_eligible data target_rev placeholder_hash p e hf
    rcases e with _ | ⟨k, v, rest⟩
    · rw [isEligible_nil] at he
      exact absurd he (by simp)
    · rw [update_json_by_rev, hf]
      simp
  · intro hw
    rcases hf : find_entry_by_rev data target_rev placeholder_hash with _ | pe
    · rw [update_json_by_rev, hf] at hw
      simp at hw
    · rcases pe with ⟨p, e⟩
      rcases he : e with _ | ⟨k, v, rest⟩
      · rw [update_json_by_rev, hf, he] at hw
        simp at hw
      · cases hd : dry_run with
        | false => exact ⟨rfl, by simp [hf]⟩
        | true =>
          rw [update_json_by_rev, hf, he, hd] at hw
          simp at hw

/-- Witness for C5: the not-found and the preview branch at concrete
inputs. -/
theorem patcher_mutation_guard_witness :
    update_json_by_rev (.ok demoDoc) "zz".data "sha256-X=".data
      PLACEHOLDER_HASH false =
      ⟨false, notFoundMessage "zz".data, none, none⟩ ∧
    update_json_by_rev (.ok demoDoc) "abc123".data "sha256-X=".data
      PLACEHOLDER_HASH true =
      ⟨true, "Would update hash for entry at path: ".data ++ "deps[0]".data,
        some "deps[0]".data, none⟩ :=
  ⟨(patcher_mutation_guard demoDoc "zz".data "sha256-X=".data
      PLACEHOLDER_HASH false).1 rfl,
   (patcher_mutation_guard demoDoc "abc123".data "sha256-X=".data
      PLACEHOLDER_HASH false).2.1 "deps[0]".data demoEntry rfl⟩

theorem searchIn_eq_none {α : Type} (m : List Char → Option α) :
    ∀ (l : List Char), (∀ t ∈ l.tails, m t = none) → searchIn m l = none
  | [], h => by
    rw [searchIn]
    exact h [] (by simp)
  | c :: t, h => by
    rw [searchIn]
    rw [h (c :: t) (by rw [List.tails_cons]; exact List.mem_cons_self _ _)]
    exact searchIn_eq_none m t
      (fun t' ht' => h t' (by rw [List.tails_cons]; exact List.mem_cons_of_mem _ ht'))

theorem searchIn_some_mem {α : Type} (m : List Char → Option α) :
    ∀ (l : List Char) (r : α), searchIn m l = some r →
      ∃ t ∈ l.tails, m t = some r
  | [], r, h => by
    rw [searchIn] at h
    exact ⟨[], by simp, h⟩
  | c :: t, r, h => by
    rw [searchIn] at h
    rcases hm : m (c :: t) with _ | r'
    · rw [hm] at h
      obtain ⟨t', ht', hmt'⟩ := searchIn_some_mem m t r h
      exact ⟨t', by rw [List.tails_cons]; exact List.mem_cons_of_mem _ ht', hmt'⟩
    · rw [hm] at h
      exact ⟨c :: t, by rw [List.tails_cons]; exact List.mem_cons_self _ _,
        by rw [hm]; exact h⟩

theorem matchGotAt_ne_nil (t h : List Char) (hm : matchGotAt t = some h) :
    h ≠ [] := by
  rw [matchGotAt] at hm
  split at hm
  · exact absurd hm (by simp)
  · split at hm
    · exact absurd hm (by simp)
    · split at hm
      · exact absurd hm (by simp)
      · split at hm
        · exact absurd hm (by simp)
        · simp only [Option.some.injEq] at hm
          rw [← hm]
          simp

/-- C6: on any input text with no position matching the computed-hash
pattern `got:\s+(sha256-[\w+/=]+)`, the output parser returns all-null,
whatever else the text contains. -/
theorem parser_all_null_without_hash_line (output : List Char)
    (h : ∀ t ∈ output.tails, matchGotAt t = none) :
    extract_hash_mismatch_info output = (none, none, none) := by
  rw [extract_hash_mismatch_info, searchIn_eq_none matchGotAt output h]

/-- Witness for C6 at a concrete unrelated build error. -/
theorem parser_all_null_witness :
    extract_hash_mismatch_info "error: builder failed with exit code 1".data =
      (none, none, none) :=
  parser_all_null_without_hash_line "error: builder failed with exit code 1".data
    (by decide)

/-- C7: on input with a computed-hash match but no unpack-source-archive
match and no archive-URL match, the parser returns the hash with a null
revision and null URL — distinct from the all-null result — and on such
a diagnostic the orchestrator continues the loop with the state
unchanged. -/
theorem parser_hash_without_rev (output new_hash : List Char)
    (hgot : searchIn matchGotAt output = some new_hash)
    (hrev : ∀ t ∈ output.tails, matchRevAt t = none)
    (hurl : ∀ t ∈ output.tails, matchUrlAnyAt t = none) :
    extract_hash_mismatch_info output = (none, some new_hash, none) ∧
    ((none, some new_hash, none) :
        Option (List Char) × Option (List Char) × Option (List Char)) ≠
      (none, none, none) ∧
    ∀ (args : Args) (s : LoopState) (rc : Int) (out : List Char), rc ≠ 0 →
      loopStep args ⟨rc, out, output⟩ s = .next s := by
  have hex : extract_hash_mismatch_info output = (none, some new_hash, none) := by
    rw [extract_hash_mismatch_info, hgot, searchIn_eq_none matchRevAt output hrev,
      searchIn_eq_none matchUrlAnyAt output hurl]
  have hnil : new_hash ≠ [] := by
    obtain ⟨t, -, hmt⟩ := searchIn_some_mem matchGotAt output new_hash hgot
    exact matchGotAt_ne_nil t new_hash hmt
  refine ⟨hex, by simp, ?_⟩
  intro args s rc out hrc
  rw [loopStep]
  rw [if_neg hrc]
  simp only [hex]
  rcases new_hash with _ | ⟨c, cs⟩
  · exact absurd rfl hnil
  · rfl

/-- Witness for C7 at a concrete diagnostic with a hash but no
revision. -/
theorem parser_hash_without_rev_witness :
    extract_hash_mismatch_info "npm error got: sha256-YYYY".data =
      (none, some "sha256-YYYY".data, none) ∧
    loopStep demoArgs ⟨1, [], "npm error got: sha256-YYYY".data⟩ demoState =
      .next demoState :=
  ⟨(parser_hash_without_rev "npm error got: sha256-YYYY".data "sha256-YYYY".data
      rfl (by decide) (by decide)).1,
   (parser_hash_without_rev "npm error got: sha256-YYYY".data "sha256-YYYY".data
      rfl (by decide) (by decide)).2.2 demoArgs demoState 1 [] (by decide)⟩

theorem pyCountAux_skip : ∀ (pat t : List Char) (k : Nat),
    pyCountAux pat t k = pyCountAux pat (t.drop k) 0
  | pat, [], k => by simp [pyCountAux]
  | pat, c :: t, 0 => by rw [List.drop_zero]
  | pat, c :: t, k + 1 => by
    rw [pyCountAux, List.drop_succ_cons]
    exact pyCountAux_skip pat t k

theorem substr_nil (pat : List Char) (hpat : pat ≠ []) :
    substrOccurrences [] pat = 0 := by
  rcases pat with _ | ⟨c, cs⟩
  · exact absurd rfl hpat
  · simp [substrOccurrences]

theorem substr_cons (pat : List Char) (c : Char) (t : List Char) :
    substrOccurrences (c :: t) pat =
      (if pat.isPrefixOf (c :: t) then 1 else 0) + substrOccurrences t pat := by
  rw [substrOccurrences, List.tails_cons, List.filter_cons]
  by_cases h : pat.isPrefixOf (c :: t) <;> simp [h, substrOccurrences] <;> omega

theorem substr_drop (pat : List Char) :
    ∀ (k : Nat) (s : List Char), (∀ j, j < k → ¬ occursAt s pat j) →
      substrOccurrences s pat = substrOccurrences (s.drop k) pat
  | 0, s, _ => by rw [List.drop_zero]
  | k + 1, [], _ => by rw [List.drop_nil]
  | k + 1, c :: t, h => by
    have h0 : ¬ pat.isPrefixOf (c :: t) := by
      intro hp
      exact h 0 (Nat.succ_pos k)
        (by rw [occursAt, List.drop_zero]; exact List.isPrefixOf_iff_prefix.mp hp)
    rw [substr_cons, if_neg h0, List.drop_succ_cons]
    have hshift : ∀ j, j < k → ¬ occursAt t pat j := by
      intro j hj hocc
      exact h (j + 1) (by omega) (by rw [occursAt, List.drop_succ_cons]; exact hocc)
    rw [substr_drop pat k t hshift]
    omega

theorem occursAt_lt_length (s pat : List Char) (hpat : pat ≠ []) (j : Nat)
    (h : occursAt s pat j) : j < s.length := by
  rw [occursAt] at h
  have h1 := h.length_le
  rw [List.length_drop] at h1
  have h2 : 0 < pat.length := List.length_pos.mpr hpat
  omega

theorem disj_drop (s pat : List Char) (hD : DisjointOccurrences s pat) (n : Nat) :
    DisjointOccurrences (s.drop n) pat := by
  intro i hi j hj hij h1 h2
  rw [List.length_drop] at hi hj
  rw [occursAt, List.drop_drop] at h1 h2
  have h1' : occursAt s pat (n + i) := h1
  have h2' : occursAt s pat (n + j) := h2
  have := hD (n + i) (by omega) (n + j) (by omega) (by omega) h1' h2'
  omega

theorem pyCountAux_eq_substr (pat : List Char) (hpat : pat ≠ []) :
    ∀ (s : List Char), DisjointOccurrences s pat →
      pyCountAux pat s 0 = substrOccurrences s pat
  | [], _ => by rw [substr_nil pat hpat, pyCountAux]
  | c :: t, hD => by
    have hL : 0 < pat.length := List.length_pos.mpr hpat
    by_cases hp : pat.isPrefixOf (c :: t)
    · rw [pyCountAux, if_pos hp, pyCountAux_skip pat t (pat.length - 1)]
      have hdropeq : t.drop (pat.length - 1) = (c :: t).drop pat.length := by
        obtain ⟨L', hL'⟩ : ∃ L', pat.length = L' + 1 := ⟨pat.length - 1, by omega⟩
        rw [hL', List.drop_succ_cons]
        simp
      have hocc0 : occursAt (c :: t) pat 0 := by
        rw [occursAt, List.drop_zero]
        exact List.isPrefixOf_iff_prefix.mp hp
      have hnone : ∀ j, j < pat.length - 1 → ¬ occursAt t pat j := by
        intro j hj hocc
        have hocc' : occursAt (c :: t) pat (j + 1) := by
          rw [occursAt, List.drop_succ_cons]
          exact hocc
        have hb2 : j + 1 < (c :: t).length :=
          occursAt_lt_length (c :: t) pat hpat (j + 1) hocc'
        have := hD 0 (by simp) (j + 1) hb2 (by omega) hocc0 hocc'
        omega
      have ih := pyCountAux_eq_substr pat hpat ((c :: t).drop pat.length)
        (disj_drop (c :: t) pat hD pat.length)
      rw [hdropeq, ih, substr_cons, if_pos hp,
        substr_drop pat (pat.length - 1) t hnone, hdropeq]
    · rw [pyCountAux, if_neg hp]
      have hDt : DisjointOccurrences t pat := by
        have := disj_drop (c :: t) pat hD 1
        simpa using this
      rw [pyCountAux_eq_substr pat hpat t hDt, substr_cons, if_neg hp]
      omega
  termination_by s => s.length
  decreasing_by
  all_goals simp [List.length_drop] <;> omega

/-- C8: the placeholder counter returns the number of substring
occurrences of the placeholder in the raw file text (the occurrences of
a placeholder with no self-overlap, as for the default sentinel), and
any read failure yields zero instead of an error. -/
theorem placeholder_counter_spec :
    (∀ (e placeholder_hash : List Char),
      count_remaining_placeholders (.error e) placeholder_hash = 0) ∧
    (∀ (content placeholder_hash : List Char), placeholder_hash ≠ [] →
      DisjointOccurrences content placeholder_hash →
      count_remaining_placeholders (.ok content) placeholder_hash =
        substrOccurrences content placeholder_hash) := by
  constructor
  · intro e placeholder_hash
    rfl
  · intro content placeholder_hash hpat hD
    rw [count_remaining_placeholders, pyCount,
      if_neg (by simpa [List.isEmpty_iff] using hpat)]
    exact pyCountAux_eq_substr placeholder_hash hpat content hD

/-- Witness for C8: a failing read counts zero; a concrete text holds
two non-overlapping occurrences. -/
theorem placeholder_counter_witness :
    count_remaining_placeholders (.error "io error".data) "ab".data = 0 ∧
    count_remaining_placeholders (.ok "zabzzab".data) "ab".data =
      substrOccurrences "zabzzab".data "ab".data ∧
    substrOccurrences "zabzzab".data "ab".data = 2 :=
  ⟨placeholder_counter_spec.1 "io error".data "ab".data,
   placeholder_counter_spec.2 "zabzzab".data "ab".data (by decide)
     (by
       intro i hi j hj hij h1 h2
       unfold occursAt at h1 h2
       have hi' : i < 7 := by simpa using hi
       have hj' : j < 7 := by simpa using hj
       have hL : ("ab".data).length = 2 := rfl
       rw [hL]
       interval_cases i <;> interval_cases j <;>
         first
         | omega
         | (revert h1 h2; decide)),
   by decide⟩

theorem loopStep_skip (args : Args) (b : BuildResult) (s : LoopState)
    (rev new_hash : List Char) (url : Option (List Char))
    (hrc : b.returncode ≠ 0)
    (hex : extract_hash_mismatch_info b.stderr = (some rev, some new_hash, url))
    (hrev : rev ≠ []) (hnh : new_hash ≠ [])
    (hmem : rev ∈ s.processed) :
    loopStep args b s = .next s := by
  rw [loopStep, if_neg hrc]
  simp only [hex]
  rcases rev with _ | ⟨c, cs⟩
  · exact absurd rfl hrev
  rcases new_hash with _ | ⟨d, ds⟩
  · exact absurd rfl hnh
  simp [pyTruthy, hmem]

theorem loopStep_patch_success (args : Args) (b : BuildResult) (s : LoopState)
    (rev new_hash : List Char) (url : Option (List Char))
    (hrc : b.returncode ≠ 0)
    (hex : extract_hash_mismatch_info b.stderr = (some rev, some new_hash, url))
    (hrev : rev ≠ []) (hnh : new_hash ≠ [])
    (hmem : rev ∉ s.processed)
    (hsucc : (update_json_by_rev (.ok s.doc) rev new_hash args.placeholder_hash
        args.dry_run).success = true) :
    loopStep args b s =
      (let u := update_json_by_rev (.ok s.doc) rev new_hash
        args.placeholder_hash args.dry_run
       let text' : List Char := match u.written with
         | some d => dumps d
         | none => s.text
       let doc' : Json := match u.written with
         | some d => d
         | none => s.doc
       let s' : LoopState := ⟨text', doc',
         s.replacements ++ [(rev, new_hash, get_entry_description (.ok s.doc) rev)],
         rev :: s.processed⟩
       if count_remaining_placeholders (.ok text') args.placeholder_hash = 0
           && args.dry_run
       then .stop .previewComplete s' else .next s') := by
  rw [loopStep, if_neg hrc]
  simp only [hex]
  rcases rev with _ | ⟨c, cs⟩
  · exact absurd rfl hrev
  rcases new_hash with _ | ⟨d, ds⟩
  · exact absurd rfl hnh
  simp only [pyTruthy, List.isEmpty_cons, Bool.not_false, Bool.and_self, if_true,
    Option.getD_some, hmem, if_neg, ite_false, hsucc, if_pos]

/-- C9: after a successful patch the loop recomputes the
remaining-placeholder count on the stored text; when it is zero a
preview run concludes immediately without a further build, while a
non-preview run falls through to the next iteration, so one more
confirming build runs before the loop can conclude. -/
theorem loop_recount_after_patch (args : Args) (b : BuildResult) (s : LoopState)
    (rev new_hash : List Char) (url : Option (List Char))
    (hrc : b.returncode ≠ 0)
    (hex : extract_hash_mismatch_info b.stderr = (some rev, some new_hash, url))
    (hrev : rev ≠ []) (hnh : new_hash ≠ [])
    (hmem : rev ∉ s.processed)
    (hsucc : (update_json_by_rev (.ok s.doc) rev new_hash args.placeholder_hash
        args.dry_run).success = true) :
    (let u := update_json_by_rev (.ok s.doc) rev new_hash
      args.placeholder_hash args.dry_run
     let text' : List Char := match u.written with
       | some d => dumps d
       | none => s.text
     let doc' : Json := match u.written with
       | some d => d
       | none => s.doc
     let s' : LoopState := ⟨text', doc',
       s.replacements ++ [(rev, new_hash, get_entry_description (.ok s.doc) rev)],
       rev :: s.processed⟩
     (count_remaining_placeholders (.ok text') args.placeholder_hash = 0 →
       args.dry_run = true →
       loopStep args b s = .stop .previewComplete s') ∧
     (count_remaining_placeholders (.ok text') args.placeholder_hash ≠ 0 ∨
         args.dry_run = false →
       loopStep args b s = .next s')) := by
  have hstep := loopStep_patch_success args b s rev new_hash url
    hrc hex hrev hnh hmem hsucc
  dsimp only at hstep ⊢
  constructor
  · intro h0 hd
    rw [hstep, if_pos (by rw [h0]; simp [hd])]
  · intro hcase
    rw [hstep, if_neg ?_]
    simp only [Bool.and_eq_true, decide_eq_true_eq]
    rintro ⟨h0, hd⟩
    rcases hcase with h | h
    · exact h h0
    · rw [h] at hd
      exact Bool.false_ne_true hd

/-- Witness for C9 at a concrete non-preview iteration: the count is
recomputed on the patched text (zero remaining) and the loop continues
to one more build. -/
theorem loop_recount_after_patch_witness :
    count_remaining_placeholders (.ok (dumps demoDocPatched)) PLACEHOLDER_HASH = 0 ∧
    loopStep demoArgs mismatchBuild demoState =
      .next ⟨dumps demoDocPatched, demoDocPatched,
        [("abc123".data, "sha256-NEWHASH=".data, "org/repo".data)],
        ["abc123".data]⟩ :=
  ⟨by decide,
   (loop_recount_after_patch demoArgs mismatchBuild demoState
      "abc123".data "sha256-NEWHASH=".data none
      (by decide) rfl (by decide) (by decide) (by simp [demoState])
      rfl).2 (Or.inr rfl)⟩

theorem runAux_all_skip (args : Args) (builds : Nat → BuildResult)
    (rev new_hash : List Char) (urls : Nat → Option (List Char))
    (hrc : ∀ j, (builds j).returncode ≠ 0)
    (hex : ∀ j, extract_hash_mismatch_info (builds j).stderr =
      (some rev, some new_hash, urls j))
    (hrev : rev ≠ []) (hnh : new_hash ≠ []) :
    ∀ (fuel i : Nat) (s : LoopState), rev ∈ s.processed →
      runAux args builds fuel i s = ⟨.exhaustedIterations, s, i + fuel⟩
  | 0, i, s, _ => by rw [runAux, Nat.add_zero]
  | fuel + 1, i, s, hmem => by
    rw [runAux, loopStep_skip args (builds i) s rev new_hash (urls i)
      (hrc i) (hex i) hrev hnh hmem]
    exact (runAux_all_skip args builds rev new_hash urls hrc hex hrev hnh
        fuel (i + 1) s hmem).trans
      (by rw [show i + 1 + fuel = i + (fuel + 1) by omega])

/-- C2: a revision already in the processed set makes the iteration skip
the patch and fall through unchanged; and when every build attempt fails
with the same revision's diagnostic, the run makes exactly one patch,
then skips every later iteration, and ends in `ExhaustedIterations`
after exactly the configured maximum number of build attempts. -/
theorem processed_rev_patched_at_most_once (args : Args)
    (builds : Nat → BuildResult) (s0 : LoopState)
    (rev new_hash : List Char) (urls : Nat → Option (List Char))
    (hdry : args.dry_run = false)
    (hrc : ∀ j, (builds j).returncode ≠ 0)
    (hex : ∀ j, extract_hash_mismatch_info (builds j).stderr =
      (some rev, some new_hash, urls j))
    (hrev : rev ≠ []) (hnh : new_hash ≠ [])
    (hnot : rev ∉ s0.processed)
    (hsucc : (update_json_by_rev (.ok s0.doc) rev new_hash
        args.placeholder_hash false).success = true)
    (hmax : 1 ≤ args.max_iterations) :
    (∀ (b : BuildResult) (s : LoopState) (u : Option (List Char)),
      b.returncode ≠ 0 →
      extract_hash_mismatch_info b.stderr = (some rev, some new_hash, u) →
      rev ∈ s.processed → loopStep args b s = .next s) ∧
    (let u := update_json_by_rev (.ok s0.doc) rev new_hash
      args.placeholder_hash false
     runLoop args builds s0 =
       ⟨.exhaustedIterations,
        ⟨(match u.written with | some d => dumps d | none => s0.text),
         (match u.written with | some d => d | none => s0.doc),
         s0.replacements ++ [(rev, new_hash, get_entry_description (.ok s0.doc) rev)],
         rev :: s0.processed⟩,
        args.max_iterations⟩) := by
  constructor
  · intro b s u hb hbex hmem
    exact loopStep_skip args b s rev new_hash u hb hbex hrev hnh hmem
  · dsimp only
    have hstep := loopStep_patch_success args (builds 0) s0 rev new_hash (urls 0)
      (hrc 0) (hex 0) hrev hnh hnot (by rw [hdry]; exact hsucc)
    rw [hdry] at hstep
    simp only [Bool.and_false, Bool.false_eq_true, if_false] at hstep
    obtain ⟨m, hm⟩ : ∃ m, args.max_iterations = m + 1 :=
      ⟨args.max_iterations - 1, by omega⟩
    rw [runLoop, hm, runAux, hstep]
    refine (runAux_all_skip args builds rev new_hash urls hrc hex hrev hnh m 1
      ⟨_, _, _, rev :: s0.processed⟩ (List.mem_cons_self _ _)).trans ?_
    rw [show 1 + m = m + 1 by omega]

/-- Witness for C2: three build attempts with the same diagnostic over
the one-entry document end exhausted after exactly three builds with one
replacement record. -/
theorem processed_rev_patched_at_most_once_witness :
    runLoop demoArgs (fun _ => mismatchBuild) demoState =
      ⟨.exhaustedIterations,
       ⟨dumps demoDocPatched, demoDocPatched,
        [("abc123".data, "sha256-NEWHASH=".data, "org/repo".data)],
        ["abc123".data]⟩,
       3⟩ :=
  (processed_rev_patched_at_most_once demoArgs (fun _ => mismatchBuild) demoState
    "abc123".data "sha256-NEWHASH=".data (fun _ => none)
    rfl (fun _ => by show mismatchBuild.returncode ≠ 0; decide) (fun _ => rfl)
    (by decide) (by decide)
    (by simp [demoState]) rfl (by decide)).2

/-- C1 (amended): when the loop ends by `break` or by exhausting its
iteration range — the `Success`, preview-completion and
`ExhaustedIterations` terminal states — the run produces the
end-of-run summary holding the count of entries updated and the
per-entry records; in the `UnrecoverableBuildFailure` state the process
exits before `print_summary`, so no summary is produced. -/
theorem summary_on_loop_end (args : Args) (builds : Nat → BuildResult)
    (s0 : LoopState) :
    ∀ (k : EndKind) (s : LoopState) (n : Nat),
      runLoop args builds s0 = ⟨k, s, n⟩ →
      mainSummary args builds s0 =
        (match k with
         | .unrecoverableBuildFailure => none
         | _ => some ⟨s.replacements.length, s.replacements⟩) := by
  intro k s n hr
  rw [mainSummary, hr]
  cases k <;> rfl

/-- Witness for C1 at a run that ends in `Success`. -/
theorem summary_on_loop_end_witness :
    mainSummary demoArgs (fun _ => goodBuild) demoState = some ⟨0, []⟩ :=
  summary_on_loop_end demoArgs (fun _ => goodBuild) demoState
    .success demoState 1 rfl

/-- Counterexample to C1 as stated: a build failure without a
hash-mismatch diagnostic reaches the `UnrecoverableBuildFailure`
terminal state via `sys.exit(1)` and the run produces no summary. -/
theorem no_summary_on_unrelated_failure :
    runLoop demoArgs (fun _ => unrelatedBuild) demoState =
      ⟨.unrecoverableBuildFailure, demoState, 1⟩ ∧
    mainSummary demoArgs (fun _ => unrelatedBuild) demoState = none :=
  ⟨rfl, rfl⟩

/-- C10: the human-description lookup hard-codes the module-level
default placeholder, so under a custom placeholder distinct from the
default an entry holding only the custom placeholder is not found and
the description falls back to the truncated revision, whereas the same
entry holding the default placeholder yields the URL-derived name. -/
theorem description_uses_default_placeholder (rev custom url : List Char)
    (hc : custom ≠ PLACEHOLDER_HASH) :
    get_entry_description
      (.ok (.obj (.cons "rev".data (.str rev)
        (.cons "hash".data (.str custom)
          (.cons "url".data (.str url) .nil))))) rev = truncatedRev rev ∧
    get_entry_description
      (.ok (.obj (.cons "rev".data (.str rev)
        (.cons "hash".data (.str PLACEHOLDER_HASH)
          (.cons "url".data (.str url) .nil))))) rev = descFromUrl url := by
  constructor
  · have hfind : find_entry_by_rev
        (.obj (.cons "rev".data (.str rev)
          (.cons "hash".data (.str custom)
            (.cons "url".data (.str url) .nil)))) rev PLACEHOLDER_HASH = none := by
      rw [find_entry_by_rev, findJ]
      rw [if_neg (by simp [isEligible, jLookup, hc])]
      simp [findO, findJ]
    simp [get_entry_description, hfind]
  · have helig : isEligible
        (.cons "rev".data (.str rev)
          (.cons "hash".data (.str PLACEHOLDER_HASH)
            (.cons "url".data (.str url) .nil))) rev PLACEHOLDER_HASH = true := by
      simp [isEligible, jLookup]
    have hfind : find_entry_by_rev
        (.obj (.cons "rev".data (.str rev)
          (.cons "hash".data (.str PLACEHOLDER_HASH)
            (.cons "url".data (.str url) .nil)))) rev PLACEHOLDER_HASH =
        some ([], .cons "rev".data (.str rev)
          (.cons "hash".data (.str PLACEHOLDER_HASH)
            (.cons "url".data (.str url) .nil))) := by
      rw [find_entry_by_rev, findJ, if_pos helig]
    simp [get_entry_description, hfind, jLookup]

/-- Witness for C10 at concrete values: the custom-placeholder entry
falls back to the truncated revision, the default-placeholder entry
yields the repository name. -/
theorem description_uses_default_placeholder_witness :
    get_entry_description
      (.ok (.obj (.cons "rev".data (.str "abc123def456789".data)
        (.cons "hash".data (.str "sha256-CUSTOM=".data)
          (.cons "url".data (.str "https://github.com/org/repo".data) .nil)))))
      "abc123def456789".data = "abc123def456".data ++ "...".data ∧
    get_entry_description
      (.ok (.obj (.cons "rev".data (.str "abc123def456789".data)
        (.cons "hash".data (.str PLACEHOLDER_HASH)
          (.cons "url".data (.str "https://github.com/org/repo".data) .nil)))))
      "abc123def456789".data = "org/repo".data :=
  ⟨((description_uses_default_placeholder "abc123def456789".data
      "sha256-CUSTOM=".data "https://github.com/org/repo".data (by decide)).1).trans
    (by decide),
   ((description_uses_default_placeholder "abc123def456789".data
      "sha256-CUSTOM=".data "https://github.com/org/repo".data (by decide)).2).trans
    (by decide)⟩
